import Mathlib

/-!
# Verification development for the gallery-preview image indexer

A shallow embedding, in Lean 4, of the core of `src/__main__.py`:
the identifier deriver (`_hash`, MD5 over the UTF-8 encoding of a string),
the two image variants (`RegularImage`, `ArchivedImage`, merged into one
inductive `Image` with per-variant fields), the recursive traversal
(`get_files`), and the in-memory index (`Galleries`) with its query
operations.  Machine integers are modelled as `Nat` with explicit
`% 2 ^ 32` where 32-bit overflow matters; Python dictionaries are
modelled as insertion-ordered association lists; Python's stable
`sorted` is modelled by a structural stable insertion sort; the
randomness of `random.choices` is modelled by an index oracle.
-/

/-! ## MD5 (`hashlib.md5` as used by `_hash`)

32-bit words are `Nat` values kept below `2 ^ 32` by reducing modulo
`4294967296` after every arithmetic step. -/

/-- The 32-bit modulus. -/
def w32 : Nat := 4294967296

/-- 32-bit bitwise complement. -/
def bnot32 (x : Nat) : Nat := x ^^^ 4294967295

/-- 32-bit left rotation by `s` bits (`0 < s < 32`).  The two shifted
parts occupy disjoint bit ranges, so addition equals bitwise or. -/
def rotl32 (x s : Nat) : Nat := (x * 2 ^ s) % w32 + x / 2 ^ (32 - s)

/-- The 64 MD5 round constants `K[i] = floor(2^32 * |sin(i+1)|)`. -/
def md5K : List Nat :=
  [3614090360, 3905402710, 606105819, 3250441966, 4118548399, 1200080426,
   2821735955, 4249261313, 1770035416, 2336552879, 4294925233, 2304563134,
   1804603682, 4254626195, 2792965006, 1236535329, 4129170786, 3225465664,
   643717713, 3921069994, 3593408605, 38016083, 3634488961, 3889429448,
   568446438, 3275163606, 4107603335, 1163531501, 2850285829, 4243563512,
   1735328473, 2368359562, 4294588738, 2272392833, 1839030562, 4259657740,
   2763975236, 1272893353, 4139469664, 3200236656, 681279174, 3936430074,
   3572445317, 76029189, 3654602809, 3873151461, 530742520, 3299628645,
   4096336452, 1126891415, 2878612391, 4237533241, 1700485571, 2399980690,
   4293915773, 2240044497, 1873313359, 4264355552, 2734768916, 1309151649,
   4149444226, 3174756917, 718787259, 3951481745]

/-- The 64 MD5 per-round left-rotation amounts. -/
def md5S : List Nat :=
  [7, 12, 17, 22, 7, 12, 17, 22, 7, 12, 17, 22, 7, 12, 17, 22,
   5, 9, 14, 20, 5, 9, 14, 20, 5, 9, 14, 20, 5, 9, 14, 20,
   4, 11, 16, 23, 4, 11, 16, 23, 4, 11, 16, 23, 4, 11, 16, 23,
   6, 10, 15, 21, 6, 10, 15, 21, 6, 10, 15, 21, 6, 10, 15, 21]

/-- A byte string: a list of naturals, each below 256. -/
abbrev Bytes := List Nat

/-- Little-endian encoding of `n` into `k` bytes. -/
def leBytes : Nat → Nat → Bytes
  | 0, _ => []
  | k + 1, n => n % 256 :: leBytes k (n / 256)

/-- MD5 padding: append `0x80`, zero bytes to 56 mod 64, then the
original length in bits as 8 little-endian bytes. -/
def md5Pad (msg : Bytes) : Bytes :=
  let padLen := (119 - msg.length % 64) % 64 + 1
  msg ++ (128 :: List.replicate (padLen - 1) 0) ++ leBytes 8 (msg.length * 8)

/-- Split a byte string into chunks of 16 little-endian 32-bit words.
The fuel argument is the number of 64-byte blocks still to cut. -/
def md5Blocks : Nat → Bytes → List (List Nat)
  | 0, _ => []
  | fuel + 1, bs =>
    (List.range 16).map
      (fun i => (bs.drop (4 * i) |>.take 4).foldr (fun b acc => acc * 256 + b) 0)
      :: md5Blocks fuel (bs.drop 64)

/-- One MD5 operation (round `i`, message words `m`). -/
def md5Step (m : List Nat) (st : Nat × Nat × Nat × Nat) (i : Nat) :
    Nat × Nat × Nat × Nat :=
  let (a, b, c, d) := st
  let f :=
    if i < 16 then (b &&& c) ||| (bnot32 b &&& d)
    else if i < 32 then (d &&& b) ||| (bnot32 d &&& c)
    else if i < 48 then b ^^^ c ^^^ d
    else c ^^^ (b ||| bnot32 d)
  let g :=
    if i < 16 then i
    else if i < 32 then (5 * i + 1) % 16
    else if i < 48 then (3 * i + 5) % 16
    else (7 * i) % 16
  let tmp := (a + f + md5K.getD i 0 + m.getD g 0) % w32
  (d, (b + rotl32 tmp (md5S.getD i 0)) % w32, b, c)

/-- Process one 16-word block into the running state. -/
def md5Block (st : Nat × Nat × Nat × Nat) (m : List Nat) :
    Nat × Nat × Nat × Nat :=
  let (a0, b0, c0, d0) := st
  let (a, b, c, d) := (List.range 64).foldl (md5Step m) (a0, b0, c0, d0)
  ((a0 + a) % w32, (b0 + b) % w32, (c0 + c) % w32, (d0 + d) % w32)

/-- One lowercase hexadecimal digit. -/
def hexDigit (n : Nat) : Char :=
  if n < 10 then Char.ofNat (48 + n) else Char.ofNat (87 + n)

/-- A byte as two lowercase hexadecimal digits. -/
def hexByte (b : Nat) : List Char := [hexDigit (b / 16), hexDigit (b % 16)]

/-- The 128-bit MD5 state as a 32-character lowercase hex digest:
each word is serialized as 4 little-endian bytes. -/
def md5Hex (st : Nat × Nat × Nat × Nat) : String :=
  let (a, b, c, d) := st
  let bytes := leBytes 4 a ++ leBytes 4 b ++ leBytes 4 c ++ leBytes 4 d
  String.mk (bytes.flatMap hexByte)

/-- The MD5 digest of a byte string, as a lowercase hex string. -/
def md5 (msg : Bytes) : String :=
  let padded := md5Pad msg
  let blocks := md5Blocks (padded.length / 64) padded
  md5Hex (blocks.foldl md5Block
    (1732584193, 4023233417, 2562383102, 271733878))

/-- The UTF-8 encoding of one character (Unicode scalar value). -/
def utf8Char (c : Char) : Bytes :=
  let n := c.toNat
  if n < 128 then [n]
  else if n < 2048 then [192 + n / 64, 128 + n % 64]
  else if n < 65536 then [224 + n / 4096, 128 + n / 64 % 64, 128 + n % 64]
  else [240 + n / 262144, 128 + n / 4096 % 64, 128 + n / 64 % 64, 128 + n % 64]

/-- The UTF-8 encoding of a string (`bytes(data, "utf-8")`). -/
def utf8Bytes (s : String) : Bytes := s.data.flatMap utf8Char

/-- `_hash(data)`: the hex MD5 digest of the UTF-8 encoding of `data`. -/
def _hash (s : String) : String := md5 (utf8Bytes s)

/-! ## Paths (`pathlib.Path` as used by the program)

A relative `pathlib.Path` is its tuple of parts: parsing drops empty
segments and `"."` segments; `str` of the empty path is `"."`. -/

/-- Split a character list at every `/`. -/
def splitSlash : List Char → List Char → List String
  | [], acc => [String.mk acc.reverse]
  | c :: rest, acc =>
    if c = '/' then String.mk acc.reverse :: splitSlash rest []
    else splitSlash rest (c :: acc)

/-- `pathlib.Path(s)` as its list of parts. -/
def parsePath (s : String) : List String :=
  (splitSlash s.data []).filter (fun t => t ≠ "" ∧ t ≠ ".")

/-- `str(path)`: parts joined by `/`; the empty path prints as `"."`. -/
def pathStr : List String → String
  | [] => "."
  | p :: rest => rest.foldl (fun acc s => acc ++ "/" ++ s) p

/-- `path.name`: the last part, `""` for the empty path. -/
def pathName (p : List String) : String := p.getLastD ""

/-- `path.suffix` of a base name, following `pathlib`: the substring
from the last dot, provided that dot is neither the first nor the last
character; otherwise `""`. -/
def pySuffix (name : String) : String :=
  let cs := name.data
  match cs.reverse.findIdx? (fun c => c = '.') with
  | none => ""
  | some j =>
    let i := cs.length - 1 - j
    if 0 < i ∧ i < cs.length - 1 then String.mk (cs.drop i) else ""

/-- `name.startswith("._")`. -/
def startsDotUnderscore (name : String) : Bool :=
  match name.data with
  | '.' :: '_' :: _ => true
  | _ => false

/-- `_IMAGE_EXTENSIONS`, the case-sensitive recognized extension set. -/
def IMAGE_EXTENSIONS : List String := [".jpg", ".jpeg", ".JPG", ".png", ".gif"]

/-! ## Image variants

`RegularImage` stores its file path (the gallery is the parent
directory); `ArchivedImage` stores the archive path, the internal
folder path and the entry base name.  The two classes are merged into
one inductive; each Python property becomes a function on it. -/

/-- The two image variants of the program. -/
inductive Image where
  | regular (file : List String)
  | archived (archive : List String) (gallery : List String) (file : String)
deriving DecidableEq

/-- `image_id`: hash of `str(self.file)` for regular images, hash of
`str(self.gallery / self.file)` for archived images. -/
def Image.image_id : Image → String
  | .regular f => _hash (pathStr f)
  | .archived _ g f => _hash (pathStr (g ++ parsePath f))

/-- `gallery_id`: hash of `str(self.gallery)` (the parent directory)
for regular images, hash of `str(self.archive / self.gallery)` for
archived images. -/
def Image.gallery_id : Image → String
  | .regular f => _hash (pathStr f.dropLast)
  | .archived a g _ => _hash (pathStr (a ++ g))

/-- `gallery_name`: `str(self.gallery)` for regular images; for
archived images the source concatenates with the literal separator
`" â†’ "` (U+00E2, U+2020, U+2019 — the UTF-8 bytes of `→` mis-decoded
as cp1252, exactly as the bytes of `src/__main__.py` line 113 read). -/
def Image.gallery_name : Image → String
  | .regular f => pathStr f.dropLast
  | .archived a g _ => pathStr a ++ " â†’ " ++ pathStr g

/-- `gallery_location`: the parent directory, or the archive file. -/
def Image.gallery_location : Image → List String
  | .regular f => f.dropLast
  | .archived a _ _ => a

/-- `image_name`: the base name. -/
def Image.image_name : Image → String
  | .regular f => pathName f
  | .archived _ _ f => f

/-! ## Filesystem model

A filesystem entry is a regular file (with on-disk bytes and, when the
bytes form a valid zip container, the list of entry names and entry
bytes in archive order), a directory with named children in listing
order, or something that is neither.  `zipfile.is_zipfile` succeeds
exactly when `zipView` is `some`, and `zipfile.ZipFile` opens exactly
those files. -/

/-- The content of a regular file. -/
structure FileData where
  bytes : Bytes
  zipView : Option (List (String × Bytes))
deriving DecidableEq

/-- A filesystem node. -/
inductive FSNode where
  | file (data : FileData)
  | dir (children : List (String × FSNode))
  | other

/-- Resolve a relative path against a node (directory lookup). -/
def resolveNode : FSNode → List String → Option FSNode
  | n, [] => some n
  | .dir cs, s :: rest =>
    match cs.lookup s with
    | some c => resolveNode c rest
    | none => none
  | _, _ :: _ => none

/-- Python exceptions the modelled code can raise.  The spec's
taxonomy maps onto them: `NotFoundError` is `keyError`,
`EmptyGalleryError` is the `indexError` from `random.choices` on an
empty population, `ArchiveError` is `badZipFile` (container does not
open) or `keyError` (named entry missing), `IOError` is `ioError`. -/
inductive Err where
  | keyError (key : String)
  | indexError
  | badZipFile
  | ioError
deriving DecidableEq

/-- Decidable equality for `Except`, so that concrete runs of the
fallible operations can be checked by `decide`. -/
instance {ε α : Type} [DecidableEq ε] [DecidableEq α] :
    DecidableEq (Except ε α) := fun a b =>
  match a, b with
  | .ok x, .ok y =>
    if h : x = y then .isTrue (by rw [h]) else .isFalse (by simp [h])
  | .error x, .error y =>
    if h : x = y then .isTrue (by rw [h]) else .isFalse (by simp [h])
  | .ok _, .error _ => .isFalse (by simp)
  | .error _, .ok _ => .isFalse (by simp)

/-- `get()`: re-read the image's bytes from the world on each call.
The regular variant opens and reads its file; the archived variant
opens the owning zip container and reads the entry named
`str(self.gallery / self.file)`. -/
def Image.get (w : FSNode) : Image → Except Err Bytes
  | .regular f =>
    match resolveNode w f with
    | some (.file d) => .ok d.bytes
    | _ => .error .ioError
  | .archived a g f =>
    match resolveNode w a with
    | some (.file d) =>
      match d.zipView with
      | some entries =>
        match entries.find? (fun e => e.1 == pathStr (g ++ parsePath f)) with
        | some e => .ok e.2
        | none => .error (.keyError (pathStr (g ++ parsePath f)))
      | none => .error .badZipFile
    | _ => .error .ioError

/-! ## Traversal (`get_files`) -/

/-- The archived images yielded for the entries of an opened zip at
`path`: one per entry whose name has a recognized image extension,
keyed by (the archive's path, the entry's parent folder, the entry's
base name), in archive order. -/
def zipImages (path : List String) (entries : List (String × Bytes)) : List Image :=
  entries.filterMap (fun e =>
    let fp := parsePath e.1
    if pySuffix (pathName fp) ∈ IMAGE_EXTENSIONS then
      some (.archived path fp.dropLast (pathName fp))
    else none)

mutual

/-- `get_files(root, accelerate)`: recursively yield the images under
the entry at `path` (whose node is `node`).  An entry whose base name
starts with `._` yields nothing.  A regular file with a recognized
image extension yields one regular image; otherwise, if `accelerate`
and the extension is exactly `.zip`, or not `accelerate` and the file
probes as a zip, the container is opened (raising `badZipFile` when it
is not a valid zip) and its image entries are yielded.  A directory
yields the concatenation over its children; anything else yields
nothing.  Errors propagate, aborting the traversal of this root. -/
def get_files (accelerate : Bool) (path : List String) (node : FSNode) :
    Except Err (List Image) :=
  if startsDotUnderscore (pathName path) then .ok []
  else
    match node with
    | .file d =>
      if pySuffix (pathName path) ∈ IMAGE_EXTENSIONS then
        .ok [.regular path]
      else if (accelerate && (pySuffix (pathName path) == ".zip"))
          || (!accelerate && d.zipView.isSome) then
        match d.zipView with
        | none => .error .badZipFile
        | some entries => .ok (zipImages path entries)
      else .ok []
    | .dir cs => getFilesChildren accelerate path cs
    | .other => .ok []

/-- Concatenate the traversals of a directory's children. -/
def getFilesChildren (accelerate : Bool) (path : List String) :
    List (String × FSNode) → Except Err (List Image)
  | [] => .ok []
  | (nm, c) :: rest => do
    let xs ← get_files accelerate (path ++ [nm]) c
    let ys ← getFilesChildren accelerate path rest
    pure (xs ++ ys)

end

/-! ## Python dictionaries

A Python 3.7+ `dict` is modelled as an association list in key
insertion order: setting an existing key updates its value in place,
setting a fresh key appends it.  A `defaultdict(list)` additionally
inserts an empty list at the end when a missing key is read. -/

/-- `d[k] = v` on a `dict`. -/
def dset (d : List (String × α)) (k : String) (v : α) : List (String × α) :=
  match d with
  | [] => [(k, v)]
  | (k', v') :: rest => if k' = k then (k, v) :: rest else (k', v') :: dset rest k v

/-- `d[k]` on a `defaultdict(list)`: the value together with the
possibly-extended dictionary. -/
def ddget (d : List (String × List Image)) (k : String) :
    List Image × List (String × List Image) :=
  match d.lookup k with
  | some v => (v, d)
  | none => ([], d ++ [(k, [])])

/-! ## String order (Python's `str` comparison)

Python compares strings lexicographically by Unicode code point; the
boolean comparison below is that order, written directly on the code
points so that it evaluates by kernel reduction. -/

/-- The code points of a string. -/
def codes (s : String) : List Nat := s.data.map Char.toNat

/-- Lexicographic `≤` on code-point lists. -/
def lexLe : List Nat → List Nat → Bool
  | [], _ => true
  | _ :: _, [] => false
  | a :: as, b :: bs => if a < b then true else if b < a then false else lexLe as bs

/-- Python's `s <= t` on strings. -/
def strLe (a b : String) : Bool := lexLe (codes a) (codes b)

/-- Python's `s < t` on strings. -/
def strLt (a b : String) : Bool := strLe a b && !(a == b)

/-! ## Stable sort (Python's `sorted`)

Python's `sorted` is a stable sort; a stable sort of a list is
uniquely determined by the comparison, so the structural stable
insertion sort below is its model. -/

/-- Insert `x` before the first element `y` with `le x y`. -/
def insertStable (le : α → α → Bool) (x : α) : List α → List α
  | [] => [x]
  | y :: ys => if le x y then x :: y :: ys else y :: insertStable le x ys

/-- Stable insertion sort. -/
def sortStable (le : α → α → Bool) : List α → List α
  | [] => []
  | x :: xs => insertStable le x (sortStable le xs)

/-! ## The index (`Galleries`) -/

/-- The Gallery Index: four mappings, all keyed by identifier strings.
`images` maps image_id to image; `image_galleries` (a
`defaultdict(list)`) maps gallery_id to the images of the gallery in
insertion order; `gallery_names` and `gallery_locations` map
gallery_id to display name and location. -/
structure Galleries where
  images : List (String × Image)
  image_galleries : List (String × List Image)
  gallery_names : List (String × String)
  gallery_locations : List (String × List String)
deriving DecidableEq

/-- `Galleries()`: all four mappings empty. -/
def emptyGalleries : Galleries := ⟨[], [], [], []⟩

/-- `insert_image`: store the image under its image_id, append it to
its gallery's list, and record the gallery's name and location. -/
def Galleries.insert_image (G : Galleries) (img : Image) : Galleries :=
  let (cur, ig) := ddget G.image_galleries img.gallery_id
  { images := dset G.images img.image_id img
    image_galleries := dset ig img.gallery_id (cur ++ [img])
    gallery_names := dset G.gallery_names img.gallery_id img.gallery_name
    gallery_locations := dset G.gallery_locations img.gallery_id img.gallery_location }

/-- Insert a sequence of images (the index build loop in `cli`). -/
def insertAll (G : Galleries) (imgs : List Image) : Galleries :=
  imgs.foldl Galleries.insert_image G

/-- `get_image(image_id)`: look the image up (a missing key raises
`KeyError`) and delegate to its `get()`. -/
def Galleries.get_image (w : FSNode) (G : Galleries) (image_id : String) :
    Except Err Bytes :=
  match G.images.lookup image_id with
  | some img => img.get w
  | none => .error (.keyError image_id)

/-- `get_gallery_names()`: the `gallery_names` items sorted (stably)
by the name component alone. -/
def Galleries.get_gallery_names (G : Galleries) : List (String × String) :=
  sortStable (fun a b => strLe a.2 b.2) G.gallery_names

/-- `get_gallery_name(gallery_id)` (missing key raises `KeyError`). -/
def Galleries.get_gallery_name (G : Galleries) (gallery_id : String) :
    Except Err String :=
  match G.gallery_names.lookup gallery_id with
  | some nm => .ok nm
  | none => .error (.keyError gallery_id)

/-- `random_images(gallery_id, k)`: `random.choices(population, k=k)`
where the population is the `defaultdict` read
`image_galleries[gallery_id]` (which inserts an empty list when the
key is missing — the returned state reflects that).  `random.choices`
returns `[]` when `k = 0`; raises `IndexError` when the population is
empty and `k > 0`; otherwise returns `k` draws `population[i]` with
each index below the population length.  The draws are modelled by the
oracle `idx`, reduced modulo the population length. -/
def Galleries.random_images (G : Galleries) (gallery_id : String) (k : Nat)
    (idx : Nat → Nat) : Except Err (List Image) × Galleries :=
  let (pop, ig) := ddget G.image_galleries gallery_id
  let G' := { G with image_galleries := ig }
  if k = 0 then (.ok [], G')
  else if pop.isEmpty then (.error .indexError, G')
  else (.ok ((List.range k).map
    (fun i => pop.getD (idx i % pop.length) (.regular []))), G')

/-- The `list_gallery_images` query of the spec: the serving layer's
direct `defaultdict` read `galleries.image_galleries[gallery_id]`
(`src/__main__.py` line 172), with the possibly-extended state. -/
def Galleries.list_gallery_images (G : Galleries) (gallery_id : String) :
    List Image × Galleries :=
  let (pop, ig) := ddget G.image_galleries gallery_id
  (pop, { G with image_galleries := ig })

/-! ## Dictionary lemmas -/

/-- The key list of a dictionary, in insertion order. -/
def keys (d : List (String × α)) : List String := d.map (fun p => p.1)

/-! ## Sanity checks

Reference MD5 digests (RFC 1321 test values) and `pathlib` behaviours,
checked by evaluation. -/

example : _hash "" = "d41d8cd98f00b204e9800998ecf8427e" := by decide
example : _hash "abc" = "900150983cd24fb0d6963f7d28e17f72" := by decide
example : pySuffix "photo.JPG" = ".JPG" := by decide
example : pySuffix "._foo" = "" := by decide
example : pySuffix "archive.zip" = ".zip" := by decide
example : parsePath "g/x.jpg" = ["g", "x.jpg"] := by decide
example : pathStr ["g", "x.jpg"] = "g/x.jpg" := by decide
example : pathStr [] = "." := by decide

theorem lookup_dset_self (d : List (String × α)) (k : String) (v : α) :
    (dset d k v).lookup k = some v := by
  induction d with
  | nil => simp [dset, List.lookup]
  | cons p rest ih =>
    obtain ⟨k', v'⟩ := p
    by_cases h : k' = k
    · simp [dset, h, List.lookup]
    · have hb : (k == k') = false := beq_eq_false_iff_ne.mpr (Ne.symm h)
      simp [dset, if_neg h, List.lookup, hb, ih]

theorem lookup_dset_ne (d : List (String × α)) (k k' : String) (v : α)
    (h : k' ≠ k) : (dset d k v).lookup k' = d.lookup k' := by
  have hb : (k' == k) = false := beq_eq_false_iff_ne.mpr h
  induction d with
  | nil => simp [dset, List.lookup, hb]
  | cons p rest ih =>
    obtain ⟨k₀, v₀⟩ := p
    by_cases h₀ : k₀ = k
    · subst h₀
      simp [dset, List.lookup, hb]
    · by_cases h₁ : k' = k₀
      · subst h₁
        simp [dset, if_neg h₀, List.lookup]
      · have hb₁ : (k' == k₀) = false := beq_eq_false_iff_ne.mpr h₁
        simp [dset, if_neg h₀, List.lookup, hb₁, ih]

theorem keys_dset (d : List (String × α)) (k : String) (v : α) :
    keys (dset d k v) = if k ∈ keys d then keys d else keys d ++ [k] := by
  induction d with
  | nil => simp [dset, keys]
  | cons p rest ih =>
    obtain ⟨k₀, v₀⟩ := p
    by_cases h₀ : k₀ = k
    · simp [dset, h₀, keys]
    · have hne : ¬ k = k₀ := fun hc => h₀ hc.symm
      simp only [dset, if_neg h₀, keys, List.map_cons, List.mem_cons, hne,
        false_or] at ih ⊢
      rw [ih]
      by_cases hm : k ∈ List.map (fun p => p.1) rest
      · simp [hm]
      · simp [hm]

theorem mem_keys_dset (d : List (String × α)) (k k' : String) (v : α)
    (h : k' ∈ keys d) : k' ∈ keys (dset d k v) := by
  rw [keys_dset]
  by_cases hm : k ∈ keys d
  · simp [hm, h]
  · simp [hm]
    exact Or.inl h

theorem mem_keys_dset_self (d : List (String × α)) (k : String) (v : α) :
    k ∈ keys (dset d k v) := by
  rw [keys_dset]
  by_cases hm : k ∈ keys d
  · simp [hm]
  · simp [hm]

theorem mem_dset (d : List (String × α)) (k : String) (v : α) (p : String × α)
    (h : p ∈ dset d k v) : p ∈ d ∨ p = (k, v) := by
  induction d with
  | nil => simp [dset] at h; simp [h]
  | cons q rest ih =>
    obtain ⟨k₀, v₀⟩ := q
    by_cases h₀ : k₀ = k
    · simp [dset, h₀] at h
      rcases h with h | h
      · right; simp [h]
      · left; simp [h]
    · simp [dset, if_neg h₀] at h
      rcases h with h | h
      · left; simp [h]
      · rcases ih h with h' | h'
        · left; simp [h']
        · right; exact h'

theorem lookup_none_of_not_mem_keys (d : List (String × α)) (k : String)
    (h : k ∉ keys d) : d.lookup k = none := by
  induction d with
  | nil => simp [List.lookup]
  | cons p rest ih =>
    obtain ⟨k₀, v₀⟩ := p
    have h1 : k ≠ k₀ := fun hc => h (by simp [keys, hc])
    have h2 : k ∉ keys rest := fun hc => h (by
      simp only [keys, List.map_cons, List.mem_cons]
      exact Or.inr (by simpa [keys] using hc))
    have hb : (k == k₀) = false := beq_eq_false_iff_ne.mpr h1
    simp only [List.lookup, hb]
    exact ih h2

theorem lookup_isSome_of_mem_keys (d : List (String × α)) (k : String)
    (h : k ∈ keys d) : (d.lookup k).isSome = true := by
  induction d with
  | nil => simp [keys] at h
  | cons p rest ih =>
    obtain ⟨k₀, v₀⟩ := p
    by_cases h₀ : k = k₀
    · simp [List.lookup, h₀]
    · have hb : (k == k₀) = false := beq_eq_false_iff_ne.mpr h₀
      simp only [List.lookup, hb]
      apply ih
      simp only [keys, List.map_cons, List.mem_cons] at h
      rcases h with h | h
      · exact absurd h h₀
      · simpa [keys] using h

theorem ddget_known (d : List (String × List Image)) (k : String)
    (v : List Image) (h : d.lookup k = some v) : ddget d k = (v, d) := by
  simp [ddget, h]

theorem ddget_fresh (d : List (String × List Image)) (k : String)
    (h : d.lookup k = none) : ddget d k = ([], d ++ [(k, [])]) := by
  simp [ddget, h]

/-! ## String-order lemmas -/

theorem lexLe_total : ∀ x y : List Nat, lexLe x y = true ∨ lexLe y x = true
  | [], _ => Or.inl (by simp [lexLe])
  | _ :: _, [] => Or.inr (by simp [lexLe])
  | a :: as, b :: bs => by
    by_cases hab : a < b
    · exact Or.inl (by simp [lexLe, hab])
    · by_cases hba : b < a
      · exact Or.inr (by simp [lexLe, hba])
      · rcases lexLe_total as bs with h | h
        · exact Or.inl (by simp [lexLe, hab, hba, h])
        · exact Or.inr (by simp [lexLe, hab, hba, h])

theorem lexLe_trans :
    ∀ x y z : List Nat, lexLe x y = true → lexLe y z = true → lexLe x z = true
  | [], _, _, _, _ => by simp [lexLe]
  | _ :: _, [], _, h, _ => by simp [lexLe] at h
  | _ :: _, _ :: _, [], _, h => by simp [lexLe] at h
  | a :: as, b :: bs, c :: cs, h1, h2 => by
    simp only [lexLe] at h1 h2 ⊢
    by_cases hab : a < b
    · by_cases hbc : b < c
      · simp [show a < c by omega]
      · by_cases hcb : c < b
        · simp [hab, hbc, hcb] at h2
        · simp [show a < c by omega]
    · by_cases hba : b < a
      · simp [hab, hba] at h1
      · have heq : a = b := by omega
        subst heq
        by_cases hac : a < c
        · simp [hac]
        · by_cases hca : c < a
          · simp [hac, hca] at h2
          · simp only [hab, hba, if_neg hac, if_neg hca, if_false] at h1 h2 ⊢
            exact lexLe_trans as bs cs h1 h2

theorem strLe_total (a b : String) : strLe a b = true ∨ strLe b a = true :=
  lexLe_total (codes a) (codes b)

theorem strLe_trans (a b c : String) (h1 : strLe a b = true)
    (h2 : strLe b c = true) : strLe a c = true :=
  lexLe_trans (codes a) (codes b) (codes c) h1 h2

/-! ## Stable-sort lemmas -/

theorem insertStable_perm (le : α → α → Bool) (x : α) (l : List α) :
    List.Perm (insertStable le x l) (x :: l) := by
  induction l with
  | nil => simp [insertStable]
  | cons y ys ih =>
    by_cases h : le x y = true
    · simp [insertStable, h]
    · simp only [insertStable, if_neg h]
      exact (ih.cons y).trans (List.Perm.swap x y ys)

theorem sortStable_perm (le : α → α → Bool) (l : List α) :
    List.Perm (sortStable le l) l := by
  induction l with
  | nil => simp [sortStable]
  | cons x xs ih =>
    exact (insertStable_perm le x (sortStable le xs)).trans (ih.cons x)

theorem pairwise_insertStable (le : α → α → Bool)
    (htrans : ∀ a b c, le a b = true → le b c = true → le a c = true)
    (htot : ∀ a b, le a b = true ∨ le b a = true)
    (x : α) (l : List α)
    (hl : l.Pairwise (fun a b => le a b = true)) :
    (insertStable le x l).Pairwise (fun a b => le a b = true) := by
  induction l with
  | nil => simp [insertStable]
  | cons y ys ih =>
    rcases List.pairwise_cons.mp hl with ⟨hy, hys⟩
    by_cases h : le x y = true
    · simp only [insertStable, if_pos h]
      refine List.pairwise_cons.mpr ⟨?_, hl⟩
      intro z hz
      rcases List.mem_cons.mp hz with rfl | hz'
      · exact h
      · exact htrans x y z h (hy z hz')
    · simp only [insertStable, if_neg h]
      have hyx : le y x = true := (htot x y).resolve_left h
      refine List.pairwise_cons.mpr ⟨?_, ih hys⟩
      intro z hz
      have hz2 : z = x ∨ z ∈ ys := by
        have := (insertStable_perm le x ys).mem_iff.mp hz
        simpa using this
      rcases hz2 with rfl | hz'
      · exact hyx
      · exact hy z hz'

theorem pairwise_sortStable (le : α → α → Bool)
    (htrans : ∀ a b c, le a b = true → le b c = true → le a c = true)
    (htot : ∀ a b, le a b = true ∨ le b a = true) (l : List α) :
    (sortStable le l).Pairwise (fun a b => le a b = true) := by
  induction l with
  | nil => simp [sortStable]
  | cons x xs ih => exact pairwise_insertStable le htrans htot x _ ih

/-! ## Index lemmas -/

theorem insert_image_images (G : Galleries) (img : Image) :
    (G.insert_image img).images = dset G.images img.image_id img := rfl

theorem insert_image_gallery_names (G : Galleries) (img : Image) :
    (G.insert_image img).gallery_names =
      dset G.gallery_names img.gallery_id img.gallery_name := rfl

theorem insert_image_gallery_locations (G : Galleries) (img : Image) :
    (G.insert_image img).gallery_locations =
      dset G.gallery_locations img.gallery_id img.gallery_location := rfl

theorem insert_image_image_galleries (G : Galleries) (img : Image) :
    (G.insert_image img).image_galleries =
      dset (ddget G.image_galleries img.gallery_id).2 img.gallery_id
        ((ddget G.image_galleries img.gallery_id).1 ++ [img]) := rfl

/-- The image stored under a key after a build is the last inserted
image carrying that key, falling back to the prior contents. -/
theorem lookup_images_insertAll (G : Galleries) (imgs : List Image)
    (iid : String) :
    (insertAll G imgs).images.lookup iid =
      match imgs.reverse.find? (fun i => i.image_id == iid) with
      | some img => some img
      | none => G.images.lookup iid := by
  induction imgs generalizing G with
  | nil => simp [insertAll]
  | cons img rest ih =>
    have step : insertAll G (img :: rest) = insertAll (G.insert_image img) rest := by
      simp [insertAll]
    rw [step, ih, List.reverse_cons, List.find?_append]
    cases hf : rest.reverse.find? (fun i => i.image_id == iid) with
    | some i => simp [Option.or]
    | none =>
      simp only [Option.or]
      by_cases hid : img.image_id = iid
      · simp only [List.find?_cons, hid, beq_self_eq_true]
        rw [insert_image_images, hid, lookup_dset_self]
      · have hb : (img.image_id == iid) = false := beq_eq_false_iff_ne.mpr hid
        simp only [List.find?_cons, hb, List.find?_nil]
        rw [insert_image_images, lookup_dset_ne G.images img.image_id iid img
          (Ne.symm hid)]

theorem mem_keys_of_lookup (d : List (String × α)) (k : String) (v : α)
    (h : d.lookup k = some v) : k ∈ keys d := by
  induction d with
  | nil => simp [List.lookup] at h
  | cons p rest ih =>
    obtain ⟨k₀, v₀⟩ := p
    by_cases h₀ : k = k₀
    · simp [keys, h₀]
    · have hb : (k == k₀) = false := beq_eq_false_iff_ne.mpr h₀
      simp only [List.lookup, hb] at h
      simp only [keys, List.map_cons, List.mem_cons]
      exact Or.inr (ih h)

/-! ## Claims -/

/-- Claim C1 (as stated, refuted): the round trip is broken by image_id
collisions.  Two archives `root/a1.zip` and `root/a2.zip` each contain
an entry `g/x.jpg` (with bytes `[1]` and `[2]`); traversal yields both
archived images, their image_ids coincide (the id is derived from the
internal path only), the index keeps only the later one, and
`get_image` on the first image's image_id returns the second image's
bytes, not the first's. -/
theorem get_image_roundtrip_cex :
    get_files true ["root"]
      (.dir [("a1.zip", .file ⟨[0], some [("g/x.jpg", [1])]⟩),
             ("a2.zip", .file ⟨[0], some [("g/x.jpg", [2])]⟩)])
      = .ok [.archived ["root", "a1.zip"] ["g"] "x.jpg",
             .archived ["root", "a2.zip"] ["g"] "x.jpg"] ∧
    Image.get
      (.dir [("root", .dir [("a1.zip", .file ⟨[0], some [("g/x.jpg", [1])]⟩),
                            ("a2.zip", .file ⟨[0], some [("g/x.jpg", [2])]⟩)])])
      (.archived ["root", "a1.zip"] ["g"] "x.jpg") = .ok [1] ∧
    Galleries.get_image
      (.dir [("root", .dir [("a1.zip", .file ⟨[0], some [("g/x.jpg", [1])]⟩),
                            ("a2.zip", .file ⟨[0], some [("g/x.jpg", [2])]⟩)])])
      (insertAll emptyGalleries
        [.archived ["root", "a1.zip"] ["g"] "x.jpg",
         .archived ["root", "a2.zip"] ["g"] "x.jpg"])
      (Image.image_id (.archived ["root", "a1.zip"] ["g"] "x.jpg"))
      = .ok [2] := by
  decide

/-- Claim C1 (amended): for every image produced by traversal and
inserted, whose image_id is not also the image_id of a later-inserted
image (expressed: it is the last image in traversal order carrying its
image_id), `get_image` on its image_id returns exactly `get()` of that
image. -/
theorem get_image_roundtrip (w : FSNode) (accel : Bool) (path : List String)
    (node : FSNode) (imgs : List Image) (img : Image)
    (htrav : get_files accel path node = .ok imgs)
    (hmem : img ∈ imgs)
    (hlast : imgs.reverse.find? (fun i => i.image_id == img.image_id)
      = some img) :
    Galleries.get_image w (insertAll emptyGalleries imgs) img.image_id
      = img.get w := by
  have h := lookup_images_insertAll emptyGalleries imgs img.image_id
  rw [hlast] at h
  simp [Galleries.get_image, h]

/-- Witness for C1: a world with one loose image, traversed and
indexed; the round trip holds there. -/
theorem get_image_roundtrip_witness :
    Galleries.get_image (.dir [("d", .dir [("p.jpg", .file ⟨[7], none⟩)])])
      (insertAll emptyGalleries [.regular ["d", "p.jpg"]])
      (Image.image_id (.regular ["d", "p.jpg"]))
      = Image.get (.dir [("d", .dir [("p.jpg", .file ⟨[7], none⟩)])])
          (.regular ["d", "p.jpg"]) :=
  get_image_roundtrip _ true ["d"] (.dir [("p.jpg", .file ⟨[7], none⟩)])
    [.regular ["d", "p.jpg"]] (.regular ["d", "p.jpg"])
    (by decide) (by decide) (by decide)

/-- Claim C2 (as stated, refuted at `k = 0`): `random.choices` with
`k = 0` returns the empty list even when the population is empty, so
sampling an empty gallery with `k = 0` succeeds with `[]` instead of
failing with the empty-gallery error. -/
theorem random_images_spec_cex :
    (ddget emptyGalleries.image_galleries "g").1 = [] ∧
    (Galleries.random_images emptyGalleries "g" 0 (fun _ => 0)).1
      = .ok [] := by
  decide

/-- Claim C2 (amended): for every gallery_id and every `k ≥ 1`,
sampling fails with the empty-population `IndexError` exactly when the
gallery's image list is empty, and otherwise returns exactly `k`
images, each a member of that gallery's image list (for every draw
oracle). -/
theorem random_images_spec (G : Galleries) (gid : String) (k : Nat)
    (idx : Nat → Nat) (hk : 1 ≤ k) :
    ((ddget G.image_galleries gid).1 = [] →
      (G.random_images gid k idx).1 = .error .indexError) ∧
    ((ddget G.image_galleries gid).1 ≠ [] →
      ∃ l, (G.random_images gid k idx).1 = .ok l ∧ l.length = k ∧
        ∀ x ∈ l, x ∈ (ddget G.image_galleries gid).1) := by
  have hk0 : ¬ (k = 0) := by omega
  constructor
  · intro hpop
    simp [Galleries.random_images, hk0, hpop]
  · intro hpop
    have hlen : 0 < (ddget G.image_galleries gid).1.length :=
      List.length_pos.mpr hpop
    have hres : (G.random_images gid k idx).1
        = .ok ((List.range k).map
            (fun i => ((ddget G.image_galleries gid).1).getD
              (idx i % ((ddget G.image_galleries gid).1).length)
              (.regular []))) := by
      simp [Galleries.random_images, hk0, List.isEmpty_iff, hpop]
    refine ⟨_, hres, by simp, ?_⟩
    intro x hx
    simp only [List.mem_map, List.mem_range] at hx
    obtain ⟨i, _, rfl⟩ := hx
    have hmod : idx i % ((ddget G.image_galleries gid).1).length
        < ((ddget G.image_galleries gid).1).length := Nat.mod_lt _ hlen
    rw [List.getD_eq_getElem _ _ hmod]
    exact List.getElem_mem hmod

/-- Witness for C2: a gallery holding one image, sampled with `k = 2`. -/
theorem random_images_spec_witness :
    ∃ l, (Galleries.random_images (insertAll emptyGalleries [.regular ["d", "p.jpg"]])
        (Image.gallery_id (.regular ["d", "p.jpg"])) 2 (fun _ => 0)).1 = .ok l ∧
      l.length = 2 ∧
      ∀ x ∈ l, x ∈ (ddget (insertAll emptyGalleries [.regular ["d", "p.jpg"]]).image_galleries
        (Image.gallery_id (.regular ["d", "p.jpg"]))).1 :=
  (random_images_spec (insertAll emptyGalleries [.regular ["d", "p.jpg"]])
    (Image.gallery_id (.regular ["d", "p.jpg"])) 2 (fun _ => 0) (by omega)).2
    (by decide)

/-- Claim C3 (as stated, refuted): querying an unknown gallery_id
through `random_images` (the `sample` operation) mutates the index:
the `defaultdict` read inserts an empty image list under that key.
Sampling the empty index for the unknown gallery `"g"` leaves the
gallery-images mapping holding `[("g", [])]`. -/
theorem queries_preserve_index_cex :
    emptyGalleries.image_galleries = [] ∧
    (Galleries.random_images emptyGalleries "g" 0 (fun _ => 0)).2.image_galleries
      = [("g", [])] := by
  decide

/-- Claim C3 (amended): `get_image`, `get_gallery_names` and
`get_gallery_name` never mutate the index (they are pure functions in
this embedding, as their Python bodies only read plain dicts), and
`random_images` / `list_gallery_images` leave the index unchanged for
every gallery_id already present in the gallery-images mapping; for an
unknown gallery_id they extend that one mapping with an empty list
under the queried key, leaving the other three mappings unchanged. -/
theorem queries_preserve_index (G : Galleries) (gid : String) (k : Nat)
    (idx : Nat → Nat) :
    ((G.image_galleries.lookup gid).isSome = true →
      (G.random_images gid k idx).2 = G ∧
      (G.list_gallery_images gid).2 = G) ∧
    (G.image_galleries.lookup gid = none →
      (G.random_images gid k idx).2
        = { G with image_galleries := G.image_galleries ++ [(gid, [])] } ∧
      (G.list_gallery_images gid).2
        = { G with image_galleries := G.image_galleries ++ [(gid, [])] }) := by
  constructor
  · intro h
    obtain ⟨v, hv⟩ := Option.isSome_iff_exists.mp h
    have h2 := ddget_known G.image_galleries gid v hv
    constructor
    · by_cases hk : k = 0
      · simp [Galleries.random_images, h2, hk]
      · by_cases hp : v.isEmpty
        · simp [Galleries.random_images, h2, hk, hp]
        · simp [Galleries.random_images, h2, hk, hp]
    · simp [Galleries.list_gallery_images, h2]
  · intro h
    have h2 := ddget_fresh G.image_galleries gid h
    constructor
    · by_cases hk : k = 0
      · simp [Galleries.random_images, h2, hk]
      · simp [Galleries.random_images, h2, hk]
    · simp [Galleries.list_gallery_images, h2]

/-- Witness for C3: on a one-image index, sampling and listing a known
gallery leaves the index unchanged. -/
theorem queries_preserve_index_witness :
    (Galleries.random_images (insertAll emptyGalleries [.regular ["d", "p.jpg"]])
        (Image.gallery_id (.regular ["d", "p.jpg"])) 3 (fun _ => 0)).2
      = insertAll emptyGalleries [.regular ["d", "p.jpg"]] ∧
    (Galleries.list_gallery_images (insertAll emptyGalleries [.regular ["d", "p.jpg"]])
        (Image.gallery_id (.regular ["d", "p.jpg"]))).2
      = insertAll emptyGalleries [.regular ["d", "p.jpg"]] :=
  (queries_preserve_index (insertAll emptyGalleries [.regular ["d", "p.jpg"]])
    (Image.gallery_id (.regular ["d", "p.jpg"])) 3 (fun _ => 0)).1 (by decide)

/-- Claim C4 (as stated, refuted): a file whose base name starts with
`._` is skipped before the archive logic runs, so an invalid zip named
`._bad.zip` raises no error even with extension-based detection. -/
theorem zip_toggle_cex :
    pySuffix (pathName ["._bad.zip"]) = ".zip" ∧
    get_files true ["._bad.zip"] (.file ⟨[9], none⟩) = .ok [] ∧
    get_files false ["._bad.zip"] (.file ⟨[9], none⟩) = .ok [] := by
  decide

/-- Claim C4 (amended): for every regular file whose base name does not
start with `._` and whose extension is exactly `.zip` but whose
contents are not a valid zip container, traversal with
`treat_zip_by_extension = true` attempts to open it and fails with the
archive error, while with `treat_zip_by_extension = false` the probe
fails and the file is skipped, yielding nothing. -/
theorem zip_toggle (path : List String) (bs : Bytes)
    (hhid : startsDotUnderscore (pathName path) = false)
    (hsuf : pySuffix (pathName path) = ".zip") :
    get_files true path (.file ⟨bs, none⟩) = .error .badZipFile ∧
    get_files false path (.file ⟨bs, none⟩) = .ok [] := by
  have hni : ".zip" ∉ IMAGE_EXTENSIONS := by decide
  constructor
  · rw [get_files]; simp [hhid, hsuf, hni]
  · rw [get_files]; simp [hhid, hsuf, hni]

/-- Witness for C4: the file `bad.zip` with non-zip contents. -/
theorem zip_toggle_witness :
    get_files true ["bad.zip"] (.file ⟨[9], none⟩) = .error .badZipFile ∧
    get_files false ["bad.zip"] (.file ⟨[9], none⟩) = .ok [] :=
  zip_toggle ["bad.zip"] [9] (by decide) (by decide)

/-- Claim C5 (as stated, refuted): ties between equal display names
are not broken by gallery_id.  A loose-file gallery from the directory
`x.zip â†’ f` and an archived gallery `f` inside `x.zip` have the same
display name; inserted in this order, `get_gallery_names` returns
their ids in strictly decreasing order on the name tie (Python's
stable sort keeps insertion order). -/
theorem gallery_names_sorted_cex :
    Galleries.get_gallery_names (insertAll emptyGalleries
        [.regular ["x.zip â†’ f", "p.jpg"], .archived ["x.zip"] ["f"] "q.jpg"])
      = [("e99a17567c08afd3ff159074629b6210", "x.zip â†’ f"),
         ("e2e981766a326ea8f98df08b754c5ff2", "x.zip â†’ f")] ∧
    strLt "e2e981766a326ea8f98df08b754c5ff2"
      "e99a17567c08afd3ff159074629b6210" = true := by
  decide

/-- Claim C5 (amended): `get_gallery_names` returns all known
galleries (a permutation of the gallery-names mapping) sorted
non-decreasingly by display name, and calling it twice on the same
index yields identical output; ties keep the mapping's insertion
order rather than being re-ordered by gallery_id. -/
theorem gallery_names_sorted (G : Galleries) :
    (G.get_gallery_names).Pairwise (fun x y => strLe x.2 y.2 = true) ∧
    List.Perm G.get_gallery_names G.gallery_names ∧
    G.get_gallery_names = G.get_gallery_names := by
  refine ⟨?_, sortStable_perm _ _, rfl⟩
  exact pairwise_sortStable (fun a b : String × String => strLe a.2 b.2)
    (fun a b c h1 h2 => strLe_trans a.2 b.2 c.2 h1 h2)
    (fun a b => strLe_total a.2 b.2) G.gallery_names

/-- Claim C6 (code bug): the spec's separator is `" → "` (a space, the
rightwards-arrow U+2192, a space), but the source file's bytes at the
`gallery_name` property hold the mojibake `" â†’ "` (U+00E2, U+2020,
U+2019 — the UTF-8 bytes of `→` mis-decoded as cp1252).  Evaluating
the code at a concrete archived image shows the divergence. -/
theorem gallery_name_arrow_bug :
    Image.gallery_name (.archived ["a.zip"] ["g"] "x.jpg")
      = "a.zip â†’ g" ∧
    Image.gallery_name (.archived ["a.zip"] ["g"] "x.jpg")
      ≠ "a.zip → g" := by
  decide

/-- Claim C7 (as stated, refuted): after inserting two archived images
with the same internal path `g/x.jpg` from the different archives `a1`
and `a2`, the first image's gallery_id is still a key of the
gallery-name mapping, but no image stored in the image_id mapping
carries that gallery_id (the shared image_id slot was overwritten), so
a gallery_id appears in one mapping and not in all four. -/
theorem index_invariant_cex :
    ((insertAll emptyGalleries
        [.archived ["a1"] ["g"] "x.jpg", .archived ["a2"] ["g"] "x.jpg"]).gallery_names.lookup
      (Image.gallery_id (.archived ["a1"] ["g"] "x.jpg"))).isSome = true ∧
    (insertAll emptyGalleries
        [.archived ["a1"] ["g"] "x.jpg", .archived ["a2"] ["g"] "x.jpg"]).images.all
      (fun p => p.2.gallery_id != Image.gallery_id (.archived ["a1"] ["g"] "x.jpg"))
      = true := by
  decide

/-- Claim C7 (amended): after every sequence of inserts into an empty
index, the three gallery mappings (gallery-images, gallery-name,
gallery-location) have identical key sequences, and the gallery_id of
every image stored in the image_id mapping is a key of all of them;
but a gallery_id present in the gallery mappings need not be the
gallery_id of any currently stored image (last-insert-wins can
overwrite the only image that carried it). -/
theorem index_invariant (imgs : List Image) :
    keys (insertAll emptyGalleries imgs).image_galleries
      = keys (insertAll emptyGalleries imgs).gallery_names ∧
    keys (insertAll emptyGalleries imgs).gallery_names
      = keys (insertAll emptyGalleries imgs).gallery_locations ∧
    ∀ p ∈ (insertAll emptyGalleries imgs).images,
      p.2.gallery_id ∈ keys (insertAll emptyGalleries imgs).gallery_names := by
  suffices h : ∀ G : Galleries,
      (keys G.image_galleries = keys G.gallery_names ∧
       keys G.gallery_names = keys G.gallery_locations ∧
       ∀ p ∈ G.images, p.2.gallery_id ∈ keys G.gallery_names) →
      (keys (insertAll G imgs).image_galleries
        = keys (insertAll G imgs).gallery_names ∧
       keys (insertAll G imgs).gallery_names
        = keys (insertAll G imgs).gallery_locations ∧
       ∀ p ∈ (insertAll G imgs).images,
         p.2.gallery_id ∈ keys (insertAll G imgs).gallery_names) by
    exact h emptyGalleries (by simp [emptyGalleries, keys])
  induction imgs with
  | nil => intro G hG; simpa [insertAll] using hG
  | cons img rest ih =>
    intro G hG
    obtain ⟨h1, h2, h3⟩ := hG
    have step : insertAll G (img :: rest)
        = insertAll (G.insert_image img) rest := by simp [insertAll]
    rw [step]
    apply ih
    have hig := insert_image_image_galleries G img
    have hnames := insert_image_gallery_names G img
    have hlocs := insert_image_gallery_locations G img
    have himgs := insert_image_images G img
    cases hl : G.image_galleries.lookup img.gallery_id with
    | some v =>
      have hdd := ddget_known _ _ _ hl
      have hkmem : img.gallery_id ∈ keys G.image_galleries :=
        mem_keys_of_lookup _ _ _ hl
      have hknames : img.gallery_id ∈ keys G.gallery_names := h1 ▸ hkmem
      have hklocs : img.gallery_id ∈ keys G.gallery_locations := h2 ▸ hknames
      refine ⟨?_, ?_, ?_⟩
      · rw [hig, hdd, hnames, keys_dset, keys_dset, if_pos hkmem,
          if_pos hknames, h1]
      · rw [hnames, hlocs, keys_dset, keys_dset, if_pos hknames,
          if_pos hklocs, h2]
      · intro p hp
        rw [himgs] at hp
        rw [hnames, keys_dset, if_pos hknames]
        rcases mem_dset _ _ _ _ hp with hmem | heq
        · exact h3 p hmem
        · rw [heq]
          exact hknames
    | none =>
      have hdd := ddget_fresh _ _ hl
      have hkig : img.gallery_id ∉ keys G.image_galleries := by
        intro hm
        have := lookup_isSome_of_mem_keys G.image_galleries img.gallery_id hm
        rw [hl] at this
        simp at this
      have hknames : img.gallery_id ∉ keys G.gallery_names := h1 ▸ hkig
      have hklocs : img.gallery_id ∉ keys G.gallery_locations := h2 ▸ hknames
      have hkmem' : img.gallery_id
          ∈ keys (G.image_galleries ++ [(img.gallery_id, ([] : List Image))]) := by
        simp [keys]
      have hkey_app : keys (G.image_galleries ++ [(img.gallery_id, ([] : List Image))])
          = keys G.image_galleries ++ [img.gallery_id] := by
        simp [keys]
      refine ⟨?_, ?_, ?_⟩
      · rw [hig, hdd, hnames, keys_dset, keys_dset, if_pos hkmem',
          if_neg hknames, hkey_app, h1]
      · rw [hnames, hlocs, keys_dset, keys_dset, if_neg hknames,
          if_neg hklocs, h2]
      · intro p hp
        rw [himgs] at hp
        rw [hnames, keys_dset, if_neg hknames]
        rcases mem_dset _ _ _ _ hp with hmem | heq
        · exact List.mem_append_left _ (h3 p hmem)
        · rw [heq]
          simp

/-- Witness for C7: on a one-image build, the stored image's
gallery_id is a key of the gallery-name mapping. -/
theorem index_invariant_witness :
    Image.gallery_id (.regular ["d", "p.jpg"]) ∈
      keys (insertAll emptyGalleries [.regular ["d", "p.jpg"]]).gallery_names :=
  (index_invariant [.regular ["d", "p.jpg"]]).2.2
    (Image.image_id (.regular ["d", "p.jpg"]), .regular ["d", "p.jpg"])
    (by decide)

/-- Claim C8: for every filesystem entry whose base name starts with
`._`, traversal yields no image and never recurses into it, whatever
kind of entry it is — the check is the first thing `get_files` does. -/
theorem skip_metadata (accel : Bool) (path : List String) (node : FSNode)
    (h : startsDotUnderscore (pathName path) = true) :
    get_files accel path node = .ok [] := by
  rw [get_files.eq_def]
  simp [h]

/-- Witness for C8: a `._`-prefixed file with a recognized image
extension, and a `._`-prefixed directory with an image inside. -/
theorem skip_metadata_witness :
    get_files true ["._hidden.jpg"] (.file ⟨[1], none⟩) = .ok [] ∧
    get_files false ["a", "._dir"] (.dir [("x.jpg", .file ⟨[1], none⟩)])
      = .ok [] :=
  ⟨skip_metadata true ["._hidden.jpg"] (.file ⟨[1], none⟩) (by decide),
   skip_metadata false ["a", "._dir"] (.dir [("x.jpg", .file ⟨[1], none⟩)])
     (by decide)⟩

/-- Claim C9 (as stated, refuted): the "if and only if" fails for
metadata shadow files: `._p.jpg` has the recognized extension `.jpg`
yet traversal emits nothing for it. -/
theorem loose_file_emission_cex :
    pySuffix (pathName ["._p.jpg"]) ∈ IMAGE_EXTENSIONS ∧
    get_files true ["._p.jpg"] (.file ⟨[1], none⟩) = .ok [] := by
  decide

/-- Claim C9 (amended): for every regular file whose base name does
not start with `._`, traversal emits it as a loose-file image if and
only if its extension is in the case-sensitive recognized set
(`.jpg`, `.jpeg`, `.JPG`, `.png`, `.gif`): with a recognized extension
the yield is exactly that one regular image, and otherwise no regular
image is ever yielded for the file (the zip branch yields only
archived images). -/
theorem loose_file_emission (accel : Bool) (path : List String) (d : FileData)
    (hhid : startsDotUnderscore (pathName path) = false) :
    (pySuffix (pathName path) ∈ IMAGE_EXTENSIONS →
      get_files accel path (.file d) = .ok [.regular path]) ∧
    (pySuffix (pathName path) ∉ IMAGE_EXTENSIONS →
      ∀ l, get_files accel path (.file d) = .ok l →
        ∀ p, Image.regular p ∉ l) := by
  constructor
  · intro hext
    rw [get_files]
    simp [hhid, hext]
  · intro hext l hl p hp
    rw [get_files] at hl
    rw [if_neg (by simp [hhid])] at hl
    rw [if_neg hext] at hl
    by_cases hz : ((accel && (pySuffix (pathName path) == ".zip"))
        || (!accel && d.zipView.isSome)) = true
    · rw [if_pos hz] at hl
      cases hzv : d.zipView with
      | none => rw [hzv] at hl; cases hl
      | some es =>
        rw [hzv] at hl
        cases hl
        revert hp
        intro hmem
        simp only [zipImages, List.mem_filterMap] at hmem
        obtain ⟨e, _, he⟩ := hmem
        by_cases hc : pySuffix (pathName (parsePath e.1)) ∈ IMAGE_EXTENSIONS
        · simp [hc] at he
        · simp [hc] at he
    · rw [if_neg hz] at hl
      cases hl
      simp at hp

/-- Witness for C9: `photo.JPG` is emitted as a loose-file image;
`photo.bmp` yields no regular image (its yield is the empty list). -/
theorem loose_file_emission_witness :
    get_files true ["photo.JPG"] (.file ⟨[5], none⟩)
      = .ok [.regular ["photo.JPG"]] ∧
    Image.regular ["photo.bmp"] ∉ ([] : List Image) :=
  ⟨(loose_file_emission true ["photo.JPG"] ⟨[5], none⟩ (by decide)).1
     (by decide),
   (loose_file_emission true ["photo.bmp"] ⟨[5], none⟩ (by decide)).2
     (by decide) [] (by decide) ["photo.bmp"]⟩

/-- Claim C10: two archived images with equal internal folder and
entry name have equal image_ids even when they sit in two different
archive files, because the identifier hashes only the internal path
`str(gallery/file)`; inserting both stores only the later one under
that image_id. -/
theorem archived_image_id_collision (a1 a2 g : List String) (f : String)
    (hne : a1 ≠ a2) (G : Galleries) :
    Image.image_id (.archived a1 g f) = Image.image_id (.archived a2 g f) ∧
    (insertAll G [.archived a1 g f, .archived a2 g f]).images.lookup
        (Image.image_id (.archived a1 g f))
      = some (.archived a2 g f) := by
  have hid : Image.image_id (Image.archived a1 g f)
      = Image.image_id (.archived a2 g f) := by simp [Image.image_id]
  refine ⟨hid, ?_⟩
  have hfold : insertAll G [Image.archived a1 g f, Image.archived a2 g f]
      = (G.insert_image (.archived a1 g f)).insert_image (.archived a2 g f) :=
    rfl
  rw [hfold, insert_image_images, hid, lookup_dset_self]

/-- Witness for C10: the archives `a1` and `a2`, both holding
`g/x.jpg`. -/
theorem archived_image_id_collision_witness :
    Image.image_id (.archived ["a1"] ["g"] "x.jpg")
      = Image.image_id (.archived ["a2"] ["g"] "x.jpg") ∧
    (insertAll emptyGalleries
        [.archived ["a1"] ["g"] "x.jpg", .archived ["a2"] ["g"] "x.jpg"]).images.lookup
        (Image.image_id (.archived ["a1"] ["g"] "x.jpg"))
      = some (.archived ["a2"] ["g"] "x.jpg") :=
  archived_image_id_collision ["a1"] ["a2"] ["g"] "x.jpg" (by decide)
    emptyGalleries
